import Mathlib

/-!
Verification development for the nadha voice-chat orchestration code
(`src/app.js`).  The repository ships three variants of the application in
one file, separated by document markers:

* a simple variant (Web Speech STT + Web Speech TTS, lines 1-298), embedded
  below in namespace `Nadha.Simple`;
* the main always-on variant (Whisper STT + Supertonic TTS + prebaked
  acknowledgments, lines 299-1078), embedded in namespace `Nadha.Always`;
* a hybrid variant (lines 1079-1465) whose handlers coincide with the
  simple variant on everything the claims cite.

JavaScript's single-threaded event loop is embedded as explicit state
passing: each event handler and each segment of an `async` function between
`await` points becomes a pure Lean function on an explicit application
state, and an execution is a fold of such atomic steps over a list of
events chosen by the environment (user actions, runtime callbacks, timer
expirations).
-/

set_option autoImplicit false

namespace Nadha

/-! ## Text cleaning (shared by all variants)

The streaming display code runs, for every update,
`response.replace(/<\|im_end\|>.*$/s, '').trim()` - i.e. it deletes
everything from the first occurrence of the literal token
`<|im_end|>` to the end of the string, then trims whitespace from both
ends.  We embed this over `List Char`. -/

/-- Whitespace characters handled by JavaScript's `String.prototype.trim`
that can occur in model output: space, tab, line feed, carriage return,
vertical tab, form feed. -/
def isJsSpace (c : Char) : Bool :=
  c = ' ' || c = '\t' || c = '\n' || c = '\r' || c = '\x0b' || c = '\x0c'

/-- JavaScript `String.prototype.trim`: drop whitespace from both ends. -/
def trimL (l : List Char) : List Char :=
  ((l.dropWhile isJsSpace).reverse.dropWhile isJsSpace).reverse

/-- The end-of-turn marker of the chat template, the literal characters of
the string `<|im_end|>` used in the regular expression at app.js lines 190,
195, 606, 613, 1318 and 1323. -/
def imEndMarker : List Char := ['<', '|', 'i', 'm', '_', 'e', 'n', 'd', '|', '>']

/-- Embedding of `text.replace(/pat.*$/s, '')` for a literal pattern `pat`:
keep characters until the first position where `pat` starts, drop the rest. -/
def stripFromSeq (pat : List Char) : List Char → List Char
  | [] => []
  | c :: rest =>
    if pat.isPrefixOf (c :: rest) then [] else c :: stripFromSeq pat rest

/-- Occurrence test: does `pat` occur contiguously inside `l`? -/
def occursIn (pat : List Char) : List Char → Bool
  | [] => pat.isEmpty
  | c :: rest => pat.isPrefixOf (c :: rest) || occursIn pat rest

/-- The cleaning applied to every displayed AI response:
strip from the end-of-turn marker, then trim. -/
def cleanList (l : List Char) : List Char := trimL (stripFromSeq imEndMarker l)

/-- String-level wrapper of `cleanList`, used by the state models below. -/
def cleanStr (t : String) : String := String.mk (cleanList t.data)

/-- JavaScript `String.prototype.trim` at the string level, via `trimL`. -/
def jsTrim (t : String) : String := String.mk (trimL t.data)

/-- Boolean check that a character list has no leading and no trailing
whitespace. -/
def edgeClean (l : List Char) : Bool :=
  (match l.head? with
   | some c => !isJsSpace c
   | none => true) &&
  (match l.getLast? with
   | some c => !isJsSpace c
   | none => true)

/-! ## Status values

`setStatus(status, text)` writes a CSS class and a status line; we model the
pair. -/

structure Status where
  cls : String
  text : String
deriving DecidableEq, Repr

/-- Status after `setStatus('idle', 'Click to speak')`. -/
def idleStatus : Status := ⟨"idle", "Click to speak"⟩

/-- Status after `setStatus('idle', 'Click to start')` (always-on variant,
end of init). -/
def idleStartStatus : Status := ⟨"idle", "Click to start"⟩

/-- Status after `setStatus('idle', 'Error - try again')` (simple variant,
generation failure). -/
def errIdleStatus : Status := ⟨"idle", "Error - try again"⟩

/-- Status after `setStatus('listening', 'Listening...')`. -/
def listeningStatus : Status := ⟨"listening", "Listening..."⟩

/-- Status after `setStatus('thinking', 'Thinking...')`. -/
def thinkingStatus : Status := ⟨"thinking", "Thinking..."⟩

/-- Status after `setStatus('speaking', 'Preparing response...')`. -/
def preparingStatus : Status := ⟨"speaking", "Preparing response..."⟩

/-- Status after `setStatus('speaking', 'Speaking...')`. -/
def speakingStatus : Status := ⟨"speaking", "Speaking..."⟩

namespace Simple

/-! ## Simple variant (app.js lines 1-298)

Web Speech STT, Wllama LLM, Web Speech TTS.  The hybrid variant
(lines 1079-1465) has the same `onend`, `processWithLLM` guard and catch
handler on the cited lines. -/

/-- Application state of the simple variant: the `state` object, the
DOM text fields the handlers read and write, plus ghost instrumentation
(`genInput` for an in-flight `createCompletion` call, `utter` for the
utterance handed to `speechSynthesis.speak`, `llmCalls` for the list of
inputs on which generation was started). -/
structure AppState where
  modelLoaded : Bool
  isListening : Bool
  isProcessing : Bool
  isSpeaking : Bool
  status : Status
  userText : String
  aiText : String
  genInput : Option String
  utter : Option String
  llmCalls : List String
deriving DecidableEq, Repr

/-- Embedding of `textContent.replace(/^"|"$/g, '')` over characters:
remove one leading and one trailing double quote when present. -/
def stripQuotesL (l : List Char) : List Char :=
  let l1 := match l with
            | '"' :: rest => rest
            | _ => l
  match l1.reverse with
  | '"' :: rest => rest.reverse
  | _ => l1

/-- String-level wrapper of `stripQuotesL`. -/
def stripQuotes (t : String) : String := String.mk (stripQuotesL t.data)

/-- Synchronous prefix of `processWithLLM` (lines 170-175): the guard
`if (!state.modelLoaded || state.isProcessing) return;` followed by
setting `isProcessing`, the thinking status and clearing the AI text;
`createCompletion` is then awaited (recorded in `genInput`). -/
def processWithLLMEntry (userInput : String) (s : AppState) : AppState :=
  if !s.modelLoaded || s.isProcessing then s
  else
    { s with isProcessing := true, status := thinkingStatus, aiText := "",
             genInput := some userInput, llmCalls := s.llmCalls ++ [userInput] }

/-- Embedding of `speak` (lines 212-237): empty text resets to idle,
otherwise an utterance with the text is handed to `speechSynthesis`
and the speaking state is entered. -/
def speak (text : String) (s : AppState) : AppState :=
  if text = "" then { s with status := idleStatus }
  else { s with isSpeaking := true, status := speakingStatus, utter := some text }

/-- Environment choice for one `createCompletion` call: the stream of token
pieces delivered to `onNewToken`, and whether the call resolved or threw
(after having streamed the given pieces). -/
inductive GenOutcome
  | ok (pieces : List String)
  | fail (pieces : List String)
deriving DecidableEq, Repr

/-- Resumption of `processWithLLM` when `createCompletion` settles
(lines 183-205).  On success the final cleaned response is displayed and
spoken, then `finally` clears `isProcessing`.  On failure the `catch`
shows the error status and `finally` clears `isProcessing`; the AI text
keeps the last streamed update `clean` (each `onNewToken` wrote
`elements.aiText.textContent = clean`). -/
def processWithLLMFinish (g : GenOutcome) (s : AppState) : AppState :=
  match s.genInput with
  | none => s
  | some _ =>
    let s := { s with genInput := none }
    match g with
    | .fail pieces =>
      let s := { s with aiText := cleanStr (String.join pieces) }
      { s with status := errIdleStatus, isProcessing := false }
    | .ok pieces =>
      let finalResponse := cleanStr (String.join pieces)
      let s := { s with aiText := finalResponse }
      let s := speak finalResponse s
      { s with isProcessing := false }

/-- Embedding of `state.recognition.onend` (lines 139-149): clear
`isListening`, recover the user input from the displayed quoted text, and
either start generation (non-empty trimmed input) or reset to idle. -/
def recognitionOnEnd (s : AppState) : AppState :=
  let s := { s with isListening := false }
  let userInput := jsTrim (stripQuotes s.userText)
  if userInput ≠ "" then processWithLLMEntry userInput s
  else { s with status := idleStatus }

/-- A state in the middle of a listening turn, with the transcript shown
the way `onresult` writes it. -/
def listenState : AppState :=
  { modelLoaded := true, isListening := true, isProcessing := false,
    isSpeaking := false, status := listeningStatus,
    userText := "\"What is the capital of France?\"", aiText := "",
    genInput := none, utter := none, llmCalls := [] }

/-- A state in the middle of a listening turn whose recognized transcript
is whitespace only. -/
def listenStateBlank : AppState :=
  { listenState with userText := "\"  \"" }

/-- A thinking state with a generation call in flight. -/
def thinkingState : AppState :=
  { modelLoaded := true, isListening := false, isProcessing := true,
    isSpeaking := false, status := thinkingStatus,
    userText := "\"What is the capital of France?\"", aiText := "",
    genInput := some "What is the capital of France?", utter := none,
    llmCalls := ["What is the capital of France?"] }

end Simple

namespace Always

/-! ## Always-on variant (app.js lines 299-1078)

Whisper STT (continuous), Wllama LLM, Supertonic TTS with prebaked
acknowledgment audio, automatic re-listen after each response.  The event
loop is embedded as a step function over an explicit state: every handler
and every inter-`await` segment of `processWithLLM` is one atomic step,
and the environment chooses the order of events. -/

/-- An HTML audio element created for generated speech: its source text,
whether it is currently playing (`!paused`), and whether it has ended. -/
structure AudioEl where
  txt : String
  playing : Bool
  ended : Bool
deriving DecidableEq, Repr

/-- Where `processWithLLM` is currently suspended:
nowhere, awaiting `createCompletion` (with the accumulated token pieces),
awaiting the acknowledgment audio (lines 624-630), awaiting the
`generateTTSAudio` promise (line 633), or awaiting `playGeneratedAudio`
(line 636). -/
inductive Phase
  | off
  | generating (input : String) (tokens : List String)
  | waitAck (fullText : String)
  | waitTTS (fullText : String)
  | playingResp (fullText : String)
deriving DecidableEq, Repr

/-- The most recent `generateTTSAudio` promise: not yet created, awaiting
the `tts.call`, or settled with an audio payload (`some url`) or `null`. -/
inductive TTSPromise
  | idle
  | pending (txt : String)
  | settled (result : Option String)
deriving DecidableEq, Repr

/-- Environment choice for `playAcknowledgment()` at the start of a turn:
no prebaked audio exists (returns `null`), the audio element plays, or
autoplay was blocked (element exists but never plays). -/
inductive AckOutcome
  | noPrebaked
  | plays
  | blocked
deriving DecidableEq, Repr

/-- Application state of the always-on variant: the `state` object fields,
the module-level queue and audio variables, the recognition runtime state,
the suspension point of `processWithLLM`, pending timers, and the DOM
text fields, plus the ghost `llmCalls`. -/
structure AppState where
  modelLoaded : Bool
  ttsReady : Bool
  whisperReady : Bool
  isListening : Bool
  isProcessing : Bool
  isSpeaking : Bool
  speechQueue : List String
  isSpeakingQueue : Bool
  currentAudio : Option AudioEl
  ackStarted : Bool
  ackPlaying : Bool
  ackEnded : Bool
  recActive : Bool
  phase : Phase
  respTTS : TTSPromise
  restartTimers : Nat
  polling : Bool
  fallbackUtter : Option String
  status : Status
  userText : String
  aiText : String
  llmCalls : List String
deriving DecidableEq, Repr

/-- The `isPlaying` test of `waitForSpeechEnd` (line 843):
`currentAudio && !currentAudio.ended && !currentAudio.paused`. -/
def audioIsPlaying (s : AppState) : Bool :=
  match s.currentAudio with
  | some a => a.playing && !a.ended
  | none => false

/-- Embedding of `startAlwaysOnListening` (lines 936-946): bail out when
Whisper is not ready, otherwise enter listening state, clear the user
text and start the continuous recognition runtime. -/
def startAlwaysOnListening (s : AppState) : AppState :=
  if !s.whisperReady then s
  else
    { s with isListening := true, status := listeningStatus, userText := "",
             recActive := true }

/-- One execution of `checkSpeech` inside `waitForSpeechEnd`
(lines 842-852): while the queue, the queue processor or the tracked audio
is busy, re-schedule itself (`polling`); once drained, clear `isSpeaking`,
show the listening status and schedule `startAlwaysOnListening` after
500 ms (one more entry in `restartTimers`). -/
def checkSpeech (s : AppState) : AppState :=
  if s.speechQueue.length > 0 || s.isSpeakingQueue || audioIsPlaying s then
    { s with polling := true }
  else
    { s with polling := false, isSpeaking := false, status := listeningStatus,
             restartTimers := s.restartTimers + 1 }

/-- `waitForSpeechEnd` runs `checkSpeech` synchronously once. -/
def waitForSpeechEnd (s : AppState) : AppState := checkSpeech s

/-- The continuation of `onFinal` after `await processWithLLM(text)`
(lines 964-967): if the model is loaded and nothing is speaking, schedule
`startAlwaysOnListening` after 500 ms. -/
def onFinalResume (s : AppState) : AppState :=
  if s.modelLoaded && !s.isSpeaking then
    { s with restartTimers := s.restartTimers + 1 }
  else s

/-- End of a successful `processWithLLM` run (lines 640-642) fused with the
`onFinal` continuation that resumes right afterwards: clear `isProcessing`,
run `waitForSpeechEnd`, then the caller's post-await check. -/
def finishProc (s : AppState) : AppState :=
  onFinalResume (waitForSpeechEnd { s with isProcessing := false, phase := .off })

/-- Synchronous prefix of `processWithLLM` (lines 546-554): the guard
`if (!state.modelLoaded || state.isProcessing) return;`, then enter
thinking state, clear the AI text, play a random prebaked acknowledgment
and start `createCompletion`. -/
def processWithLLMEntry (userInput : String) (ack : AckOutcome) (s : AppState) :
    AppState :=
  if !s.modelLoaded || s.isProcessing then s
  else
    let s := { s with isProcessing := true, status := thinkingStatus, aiText := "" }
    let s :=
      match ack with
      | .noPrebaked => { s with ackStarted := false, ackPlaying := false, ackEnded := false }
      | .plays => { s with ackStarted := true, ackPlaying := true, ackEnded := false }
      | .blocked => { s with ackStarted := true, ackPlaying := false, ackEnded := false }
    { s with phase := .generating userInput [], llmCalls := s.llmCalls ++ [userInput] }

/-- One `onNewToken` callback (lines 598-608): push the piece; every fifth
token re-decode and display the cleaned partial response. -/
def tokenStep (piece : String) (s : AppState) : AppState :=
  match s.phase with
  | .generating input toks =>
    let toks := toks ++ [piece]
    let s := { s with phase := .generating input toks }
    if toks.length % 5 == 0 then { s with aiText := cleanStr (String.join toks) }
    else s
  | _ => s

/-- Start of `generateTTSAudio(text)` (lines 657-678): empty text or TTS
not ready resolves immediately with `null`, otherwise the `tts.call` is
awaited and the environment later settles it. -/
def generateTTSAudioStart (text : String) (s : AppState) : AppState :=
  if jsTrim text == "" || !s.ttsReady then { s with respTTS := .settled none }
  else { s with respTTS := .pending text }

/-- Resumption of `processWithLLM` when `createCompletion` resolves
(lines 611-638): final decode and display; if the cleaned text is longer
than 2 characters, show the preparing status, start TTS generation and
wait for a still-pending acknowledgment (else go straight to awaiting the
TTS promise); otherwise fall through to the end of the function. -/
def genDoneStep (s : AppState) : AppState :=
  match s.phase with
  | .generating _ toks =>
    let fullText := cleanStr (String.join toks)
    let s := { s with aiText := fullText }
    if fullText.length > 2 then
      let s := { s with status := preparingStatus }
      let s := generateTTSAudioStart fullText s
      if s.ackStarted && !s.ackEnded then { s with phase := .waitAck fullText }
      else { s with phase := .waitTTS fullText }
    else finishProc s
  | _ => s

/-- The `catch` of `processWithLLM` (lines 643-647) fused with the
`onFinal` continuation: clear `isProcessing`, reset the status to the
idle prompt. -/
def genErrorStep (s : AppState) : AppState :=
  match s.phase with
  | .generating _ _ =>
    onFinalResume { s with isProcessing := false, phase := .off, status := idleStatus }
  | _ => s

/-- The acknowledgment audio's `onended` event: mark it ended; when
`processWithLLM` is awaiting it (line 626), resume towards the TTS await. -/
def ackEndedStep (s : AppState) : AppState :=
  if s.ackPlaying then
    let s := { s with ackPlaying := false, ackEnded := true }
    match s.phase with
    | .waitAck ft => { s with phase := .waitTTS ft }
    | _ => s
  else s

/-- The 5000 ms safety timeout of the acknowledgment wait (line 628):
resume even though the acknowledgment may still be playing. -/
def ackTimeoutStep (s : AppState) : AppState :=
  match s.phase with
  | .waitAck ft => { s with phase := .waitTTS ft }
  | _ => s

/-- The `tts.call` inside `generateTTSAudio` settles: success yields the
audio payload, failure is caught and yields `null` (lines 663-678). -/
def ttsSettleStep (ok : Bool) (s : AppState) : AppState :=
  match s.respTTS with
  | .pending txt => { s with respTTS := .settled (if ok then some txt else none) }
  | _ => s

/-- Embedding of `playGeneratedAudio(audioData)` (lines 682-711) for a
non-null payload: stop the recognition runtime if it is listening
(feedback prevention), set `isSpeaking`, create the audio element and
play it; a rejected `play()` clears `isSpeaking` and resolves at once,
which ends `processWithLLM`. -/
def playGeneratedAudio (url : String) (playOk : Bool) (s : AppState) : AppState :=
  let s := if s.recActive then { s with recActive := false, isListening := false } else s
  let s := { s with isSpeaking := true }
  if playOk then
    { s with currentAudio := some ⟨url, true, false⟩, phase := .playingResp url }
  else finishProc { s with currentAudio := some ⟨url, false, false⟩, isSpeaking := false }

/-- Resumption of `processWithLLM` at `await ttsPromise` (lines 633-637):
with a non-null payload, show the speaking status and play it; with
`null`, skip playback and end the function. -/
def ttsResumeStep (playOk : Bool) (s : AppState) : AppState :=
  match s.phase, s.respTTS with
  | .waitTTS _, .settled (some url) =>
    playGeneratedAudio url playOk { s with status := speakingStatus }
  | .waitTTS _, .settled none => finishProc s
  | _, _ => s

/-- The response audio's `onended` handler (lines 695-700): clear
`isSpeaking` and resolve, ending `processWithLLM`.  It can only fire while
the element is actually playing (a paused element never ends). -/
def respEndedStep (s : AppState) : AppState :=
  match s.phase, s.currentAudio with
  | .playingResp _, some a =>
    if a.playing then
      finishProc { s with currentAudio := some { a with playing := false, ended := true },
                          isSpeaking := false }
    else s
  | _, _ => s

/-- The response audio's `onerror` handler (lines 701-705). -/
def respErrorStep (s : AppState) : AppState :=
  match s.phase, s.currentAudio with
  | .playingResp _, some a =>
    if a.playing then
      finishProc { s with currentAudio := some { a with playing := false },
                          isSpeaking := false }
    else s
  | _, _ => s

/-- The stop branch of `toggleVoice` (lines 984-1003), the `stopAll`
operation of the spec: pause and discard the current audio element, clear
the queue and the queue processor flag, cancel the Web Speech fallback,
clear `isSpeaking` and show the idle prompt. -/
def stopAll (s : AppState) : AppState :=
  { s with currentAudio := none, speechQueue := [], isSpeakingQueue := false,
           fallbackUtter := none, isSpeaking := false, status := idleStatus }

/-- Embedding of `window.toggleVoice` (lines 976-1016): no-op when the
model is not loaded; stop everything when speaking; stop recognition when
listening; otherwise start always-on listening unless a generation turn is
in progress. -/
def toggleVoice (s : AppState) : AppState :=
  if !s.modelLoaded then s
  else if s.isSpeaking || s.isSpeakingQueue then stopAll s
  else if s.recActive then
    { s with recActive := false, isListening := false, status := idleStatus }
  else if !s.isProcessing then startAlwaysOnListening s
  else s

/-- The quoted transcript display. -/
def quoteText (t : String) : String := "\"" ++ t ++ "\""

/-- The `onInterim` callback (lines 947-951). -/
def recInterimStep (t : String) (s : AppState) : AppState :=
  if s.recActive then
    { s with userText := quoteText (t ++ "..."), status := listeningStatus }
  else s

/-- The `onFinal` callback (lines 952-969): display the final transcript;
for a non-empty trimmed transcript while no turn is in progress, stop
listening and start `processWithLLM` (whose completion later runs
`onFinalResume`, fused into the completion steps). -/
def recFinalStep (t : String) (ack : AckOutcome) (s : AppState) : AppState :=
  if !s.recActive then s
  else
    let s := { s with userText := quoteText t }
    if !(jsTrim t == "") && !s.isProcessing then
      let s := { s with recActive := false, isListening := false }
      processWithLLMEntry t ack s
    else s

/-- Expiration of one scheduled `setTimeout(startAlwaysOnListening, ...)`. -/
def restartTimerFires (s : AppState) : AppState :=
  match s.restartTimers with
  | n + 1 => startAlwaysOnListening { s with restartTimers := n }
  | 0 => s

/-- Expiration of a scheduled `setTimeout(checkSpeech, 100)`. -/
def pollFires (s : AppState) : AppState :=
  if s.polling then checkSpeech s else s

/-- Embedding of `fallbackSpeak` (lines 905-930): empty text resets to
idle, otherwise the Web Speech fallback speaks the text. -/
def fallbackSpeak (text : String) (s : AppState) : AppState :=
  if text = "" then { s with status := idleStatus }
  else { s with isSpeaking := true, status := speakingStatus, fallbackUtter := some text }

/-- The fallback utterance's `onend` handler (lines 919-922). -/
def fallbackUtterEnded (s : AppState) : AppState :=
  { s with isSpeaking := false, status := idleStatus, fallbackUtter := none }

/-- Environment choice for one `tts.call` inside `speak`. -/
inductive SynthOutcome
  | ok
  | failed
deriving DecidableEq, Repr

/-- Embedding of `speak` (lines 856-903): empty text resets to idle; TTS
not ready falls back; otherwise enter the speaking state and synthesize -
on success the audio plays, on failure the `catch` falls back to the Web
Speech fallback with the same text. -/
def speak (text : String) (outcome : SynthOutcome) (s : AppState) : AppState :=
  if text = "" then { s with status := idleStatus }
  else if !s.ttsReady then fallbackSpeak text s
  else
    let s := { s with isSpeaking := true, status := speakingStatus }
    match outcome with
    | .ok => { s with currentAudio := some ⟨text, true, false⟩ }
    | .failed => fallbackSpeak text s

/-- The events of the always-on variant: user actions, timer expirations
and runtime callbacks, each with the environment's choices attached. -/
inductive Ev
  | toggle
  | timerFires
  | poll
  | recInterim (t : String)
  | recFinal (t : String) (ack : AckOutcome)
  | recError
  | token (piece : String)
  | genDone
  | genError
  | ackEnded
  | ackTimeout
  | ttsSettle (ok : Bool)
  | ttsResume (playOk : Bool)
  | respEnded
  | respError
deriving DecidableEq, Repr

/-- The single-threaded event loop: dispatch one event. -/
def step : Ev → AppState → AppState
  | .toggle => toggleVoice
  | .timerFires => restartTimerFires
  | .poll => pollFires
  | .recInterim t => recInterimStep t
  | .recFinal t ack => recFinalStep t ack
  | .recError => fun s => s
  | .token p => tokenStep p
  | .genDone => genDoneStep
  | .genError => genErrorStep
  | .ackEnded => ackEndedStep
  | .ackTimeout => ackTimeoutStep
  | .ttsSettle ok => ttsSettleStep ok
  | .ttsResume playOk => ttsResumeStep playOk
  | .respEnded => respEndedStep
  | .respError => respErrorStep

/-- Run a sequence of events. -/
def run (evs : List Ev) (s : AppState) : AppState :=
  evs.foldl (fun s e => step e s) s

/-- The state right after a fully successful `init()` (lines 1060-1072):
everything loaded, idle, with the auto-start listening timer pending. -/
def readyState : AppState :=
  { modelLoaded := true, ttsReady := true, whisperReady := true,
    isListening := false, isProcessing := false, isSpeaking := false,
    speechQueue := [], isSpeakingQueue := false, currentAudio := none,
    ackStarted := false, ackPlaying := false, ackEnded := false,
    recActive := false, phase := .off, respTTS := .idle,
    restartTimers := 1, polling := false, fallbackUtter := none,
    status := idleStartStatus, userText := "", aiText := "",
    llmCalls := [] }

/-- No turn in progress, nothing speaking, no tracked audio playing:
the states in which firing a delayed restart timer is benign. -/
def quiescent (s : AppState) : Bool :=
  !s.isProcessing && !s.isSpeaking && !(audioIsPlaying s)

/-- Mutual exclusion of listening against the other two activities:
the UI flag mirrors the recognition runtime, and while the runtime is
active no generation turn is in progress and nothing is speaking. -/
def ListenExclusive (s : AppState) : Prop :=
  s.isListening = s.recActive ∧
  (s.recActive = true → s.isProcessing = false ∧ s.isSpeaking = false)

/-- A turn that reaches response playback: auto-start fires, a final
transcript arrives, the model streams a token and completes, TTS succeeds
and the response audio starts playing. -/
def overlapTrace : List Ev :=
  [.timerFires,
   .recFinal "What is the capital of France?" .noPrebaked,
   .token "The capital of France is Paris.",
   .genDone, .ttsSettle true, .ttsResume true]

/-- The stale-timer interleaving: after the first response finishes, two
restart timers are pending (one from `waitForSpeechEnd`, one from
`onFinal`); one starts the next turn, and the other fires while the second
response's audio is playing. -/
def staleTimerTrace : List Ev :=
  overlapTrace ++
  [.respEnded, .timerFires,
   .recFinal "Tell me more about Paris" .noPrebaked,
   .token "Paris is the capital of France.",
   .genDone, .ttsSettle true, .ttsResume true,
   .timerFires]

/-- A thinking state: generation in progress, nothing speaking or
listening. -/
def thinkingTurnState : AppState :=
  { readyState with isProcessing := true, status := thinkingStatus,
                    phase := .generating "What is the capital of France?" [],
                    restartTimers := 0 }

/-- A state in the middle of response playback: the turn is still inside
`processWithLLM` (awaiting `playGeneratedAudio`) while the audio plays. -/
def playingState : AppState :=
  { readyState with isProcessing := true, isSpeaking := true,
                    status := speakingStatus,
                    currentAudio := some ⟨"Paris is the capital of France.", true, false⟩,
                    phase := .playingResp "Paris is the capital of France.",
                    restartTimers := 0 }

/-- A fully drained idle state: empty queue, no audio, idle prompt. -/
def drainedIdleState : AppState :=
  { readyState with status := idleStatus, restartTimers := 0 }

/-! ### Playback queue subsystem (lines 763-838)

`speakSentence`/`processQueue` drive the module-level `speechQueue`.  The
subsystem has its own state here, with ghost fields `enqueued` (texts
accepted into the queue, in order) and `started` (texts whose playback
started, in order). -/

/-- State of the playback queue subsystem. -/
structure QState where
  ttsReady : Bool
  speechQueue : List String
  isSpeakingQueue : Bool
  isSpeaking : Bool
  status : Status
  synthPending : Option String
  playing : Option String
  recActive : Bool
  isListening : Bool
  enqueued : List String
  started : List String
deriving DecidableEq, Repr

/-- Recursion worker for `processQueue`, structural on the queue contents
(the list argument always equals the state's `speechQueue`). -/
def processQueueGo : List String → QState → QState
  | [], s => { s with speechQueue := [], isSpeakingQueue := false }
  | t :: rest, s =>
    let s1 := { s with isSpeakingQueue := true, isSpeaking := true,
                       status := speakingStatus, speechQueue := rest }
    if s.ttsReady then { s1 with synthPending := some t }
    else processQueueGo rest s1

/-- Embedding of `processQueue` (lines 786-838): an empty queue clears the
processor flag; otherwise enter the speaking state, shift the oldest text
and synthesize it (`synthPending`); with TTS not ready the item is logged
and skipped, recursing on the rest. -/
def processQueue (s : QState) : QState := processQueueGo s.speechQueue s

/-- Embedding of `speakSentence` (lines 768-783): ignore blank text, stop
the recognition runtime to prevent feedback, append to the queue and start
processing when the processor is idle. -/
def speakSentence (t : String) (s : QState) : QState :=
  if jsTrim t == "" then s
  else
    let s := if s.recActive then { s with recActive := false, isListening := false } else s
    let s := { s with speechQueue := s.speechQueue ++ [t],
                      enqueued := s.enqueued ++ [t] }
    if s.isSpeakingQueue then s else processQueue s

/-- The `tts.call` of the current queue item succeeds (lines 803-829):
create the audio element and play it. -/
def synthDoneStep (s : QState) : QState :=
  match s.synthPending with
  | some t =>
    { s with synthPending := none, playing := some t, started := s.started ++ [t] }
  | none => s

/-- The `tts.call` of the current queue item throws (lines 834-837):
the `catch` advances to the next item. -/
def synthFailStep (s : QState) : QState :=
  match s.synthPending with
  | some _ => processQueue { s with synthPending := none }
  | none => s

/-- The queue item's audio `onended` handler (lines 819-823): release the
handle and advance. -/
def queueAudioEnded (s : QState) : QState :=
  match s.playing with
  | some _ => processQueue { s with playing := none }
  | none => s

/-- The queue item's audio `onerror` handler (lines 824-828). -/
def queueAudioError (s : QState) : QState :=
  match s.playing with
  | some _ => processQueue { s with playing := none }
  | none => s

/-- Events of the queue subsystem. -/
inductive QEv
  | enqueue (t : String)
  | synthDone
  | synthFail
  | audioEnded
  | audioError
deriving DecidableEq, Repr

/-- Dispatch one queue event. -/
def qstep : QEv → QState → QState
  | .enqueue t => speakSentence t
  | .synthDone => synthDoneStep
  | .synthFail => synthFailStep
  | .audioEnded => queueAudioEnded
  | .audioError => queueAudioError

/-- Run a sequence of queue events. -/
def qrun (evs : List QEv) (s : QState) : QState :=
  evs.foldl (fun s e => qstep e s) s

/-- The queue at rest with TTS loaded. -/
def queueInit : QState :=
  { ttsReady := true, speechQueue := [], isSpeakingQueue := false,
    isSpeaking := false, status := idleStatus, synthPending := none,
    playing := none, recActive := false, isListening := false,
    enqueued := [], started := [] }

/-- Option as a zero-or-one element list. -/
def optToList : Option String → List String
  | none => []
  | some t => [t]

/-- The FIFO invariant of the queue subsystem: the accepted texts are
exactly the started ones, then the one being synthesized, then the still
queued ones, in order; synthesis of a new item never overlaps playback
(so no two items play concurrently); and once everything is done the
processor flag is down. -/
def QueueInv (s : QState) : Prop :=
  s.ttsReady = true ∧
  s.enqueued = s.started ++ optToList s.synthPending ++ s.speechQueue ∧
  (s.synthPending.isSome = true → s.playing = none ∧ s.isSpeakingQueue = true) ∧
  (s.playing.isSome = true → s.isSpeakingQueue = true) ∧
  (s.speechQueue = [] ∧ s.synthPending = none ∧ s.playing = none →
    s.isSpeakingQueue = false)

/-- One item enqueued, synthesized and played to its end. -/
def singleItemTrace : List QEv :=
  [.enqueue "The capital of France is Paris.", .synthDone, .audioEnded]

end Always

end Nadha

namespace Nadha

theorem stripFromSeq_isPrefix (pat : List Char) :
    ∀ l : List Char, stripFromSeq pat l <+: l
  | [] => by simp [stripFromSeq]
  | c :: rest => by
    unfold stripFromSeq
    split
    · exact List.nil_prefix
    · exact (List.cons_prefix_cons).mpr ⟨rfl, stripFromSeq_isPrefix pat rest⟩

theorem occursIn_stripFromSeq (a : Char) (pat : List Char) :
    ∀ l : List Char, occursIn (a :: pat) (stripFromSeq (a :: pat) l) = false
  | [] => by simp [stripFromSeq, occursIn]
  | c :: rest => by
    unfold stripFromSeq
    split
    · simp [occursIn]
    · rename_i hnp
      simp only [occursIn, Bool.or_eq_false_iff]
      refine ⟨?_, occursIn_stripFromSeq a pat rest⟩
      cases hp : (a :: pat).isPrefixOf (c :: stripFromSeq (a :: pat) rest) with
      | false => rfl
      | true =>
        exfalso
        have h1 : a :: pat <+: c :: stripFromSeq (a :: pat) rest :=
          (List.isPrefixOf_iff_prefix).mp hp
        obtain ⟨hac, hpat⟩ := List.cons_prefix_cons.mp h1
        have h2 : pat <+: rest := hpat.trans (stripFromSeq_isPrefix _ rest)
        exact hnp ((List.isPrefixOf_iff_prefix).mpr
          (List.cons_prefix_cons.mpr ⟨hac, h2⟩))

theorem head_dropWhile_false (p : Char → Bool) :
    ∀ (l : List Char) (c : Char), (l.dropWhile p).head? = some c → p c = false
  | [], c => by simp [List.dropWhile]
  | a :: rest, c => by
    by_cases h : p a
    · simpa [List.dropWhile, h] using head_dropWhile_false p rest c
    · intro hc
      simp [List.dropWhile, h] at hc
      simp [← hc, h]

theorem dropWhile_isSuffix (p : Char → Bool) :
    ∀ l : List Char, l.dropWhile p <:+ l
  | [] => by simp
  | a :: rest => by
    by_cases h : p a
    · simp only [List.dropWhile, h]
      exact (dropWhile_isSuffix p rest).trans (List.suffix_cons a rest)
    · simp [List.dropWhile, h]

theorem head_of_prefix (l m : List Char) (h : l <+: m) (hne : l ≠ []) :
    l.head? = m.head? := by
  obtain ⟨u, rfl⟩ := h
  cases l with
  | nil => exact absurd rfl hne
  | cons a t => simp

theorem trimL_isPrefix_dropWhile (l : List Char) :
    trimL l <+: l.dropWhile isJsSpace := by
  unfold trimL
  obtain ⟨u, hu⟩ :=
    dropWhile_isSuffix isJsSpace (l.dropWhile isJsSpace).reverse
  refine ⟨u.reverse, ?_⟩
  have := congrArg List.reverse hu
  simpa [List.reverse_append] using this

theorem edgeClean_trimL (l : List Char) : edgeClean (trimL l) = true := by
  have hpre := trimL_isPrefix_dropWhile l
  unfold edgeClean
  rw [Bool.and_eq_true]
  constructor
  · cases hh : (trimL l).head? with
    | none => rfl
    | some c =>
      have hne : trimL l ≠ [] := by
        intro h0
        rw [h0] at hh
        cases hh
      have : (l.dropWhile isJsSpace).head? = some c := by
        rw [← head_of_prefix _ _ hpre hne]
        exact hh
      simp [head_dropWhile_false isJsSpace l c this]
  · cases hh : (trimL l).getLast? with
    | none => rfl
    | some c =>
      have : ((l.dropWhile isJsSpace).reverse.dropWhile isJsSpace).head? = some c := by
        have hrev : (trimL l).getLast? =
            ((l.dropWhile isJsSpace).reverse.dropWhile isJsSpace).head? := by
          unfold trimL
          exact List.getLast?_reverse _
        rw [← hrev]
        exact hh
      simp [head_dropWhile_false isJsSpace _ c this]

theorem occursIn_eq_true_iff (pat : List Char) :
    ∀ l : List Char, occursIn pat l = true ↔ ∃ u v, l = u ++ pat ++ v := by
  intro l
  induction l with
  | nil =>
    simp only [occursIn, List.isEmpty_iff]
    constructor
    · rintro rfl
      exact ⟨[], [], rfl⟩
    · rintro ⟨u, v, h⟩
      have := h.symm
      rw [List.append_assoc] at this
      rcases List.append_eq_nil.mp this with ⟨rfl, h2⟩
      rcases List.append_eq_nil.mp h2 with ⟨rfl, rfl⟩
      rfl
  | cons c rest ih =>
    simp only [occursIn, Bool.or_eq_true, List.isPrefixOf_iff_prefix, ih]
    constructor
    · rintro (⟨v, hv⟩ | ⟨u, v, hv⟩)
      · exact ⟨[], v, by simp [← hv]⟩
      · exact ⟨c :: u, v, by simp [hv]⟩
    · rintro ⟨u, v, hv⟩
      cases u with
      | nil =>
        left
        exact ⟨v, by simpa using hv.symm⟩
      | cons b u' =>
        right
        refine ⟨u', v, ?_⟩
        have := hv
        simp only [List.cons_append, List.cons.injEq] at this
        exact this.2

theorem occursIn_false_of_prefix (pat y z : List Char) (h : y <+: z)
    (hz : occursIn pat z = false) : occursIn pat y = false := by
  cases hy : occursIn pat y with
  | false => rfl
  | true =>
    exfalso
    obtain ⟨u, v, rfl⟩ := (occursIn_eq_true_iff pat y).mp hy
    obtain ⟨w, rfl⟩ := h
    have : occursIn pat (u ++ pat ++ v ++ w) = true :=
      (occursIn_eq_true_iff pat _).mpr ⟨u, v ++ w, by simp⟩
    rw [this] at hz
    cases hz

theorem occursIn_false_of_suffix (pat y z : List Char) (h : y <:+ z)
    (hz : occursIn pat z = false) : occursIn pat y = false := by
  cases hy : occursIn pat y with
  | false => rfl
  | true =>
    exfalso
    obtain ⟨u, v, rfl⟩ := (occursIn_eq_true_iff pat y).mp hy
    obtain ⟨w, rfl⟩ := h
    have : occursIn pat (w ++ (u ++ pat ++ v)) = true :=
      (occursIn_eq_true_iff pat _).mpr ⟨w ++ u, v, by simp⟩
    rw [this] at hz
    cases hz

theorem occursIn_cleanList_false (l : List Char) :
    occursIn imEndMarker (cleanList l) = false := by
  have h1 : occursIn imEndMarker (stripFromSeq imEndMarker l) = false :=
    occursIn_stripFromSeq '<' ['|', 'i', 'm', '_', 'e', 'n', 'd', '|', '>'] l
  have h2 : occursIn imEndMarker
      ((stripFromSeq imEndMarker l).dropWhile isJsSpace) = false :=
    occursIn_false_of_suffix _ _ _ (dropWhile_isSuffix isJsSpace _) h1
  exact occursIn_false_of_prefix _ _ _
    (trimL_isPrefix_dropWhile (stripFromSeq imEndMarker l)) h2

/-! ## Claim theorems -/

/-- C10: every value the AI response display takes during streaming and
after completion is the cleaning `cleanList`/`cleanStr` of the decoded
token stream (or the empty initial text), and that cleaning never contains
the end-of-turn marker `<|im_end|>` (hence nothing following it either,
since everything from its first occurrence on is stripped) and has no
leading or trailing whitespace. -/
theorem cleanResponse_no_marker_and_trimmed (l : List Char) :
    occursIn imEndMarker (cleanList l) = false ∧
    edgeClean (cleanList l) = true ∧
    (cleanStr (String.mk l)).data = cleanList l :=
  ⟨occursIn_cleanList_false l, edgeClean_trimL _, rfl⟩

/-- C1: when recognition ends (simple variant `onend`, with the model
loaded and no generation turn in progress), the listening turn ends in
exactly one of Thinking or Idle: a non-empty trimmed transcript starts
generation and enters the thinking state, an empty one goes to idle and
starts no generation call; the two statuses are distinct. -/
theorem onend_thinking_or_idle (s : Simple.AppState)
    (hm : s.modelLoaded = true) (hp : s.isProcessing = false) :
    (jsTrim (Simple.stripQuotes s.userText) ≠ "" →
      (Simple.recognitionOnEnd s).status = thinkingStatus ∧
      (Simple.recognitionOnEnd s).llmCalls
        = s.llmCalls ++ [jsTrim (Simple.stripQuotes s.userText)]) ∧
    (jsTrim (Simple.stripQuotes s.userText) = "" →
      (Simple.recognitionOnEnd s).status = idleStatus ∧
      (Simple.recognitionOnEnd s).llmCalls = s.llmCalls) ∧
    thinkingStatus ≠ idleStatus := by
  refine ⟨?_, ?_, by decide⟩
  · intro hne
    unfold Simple.recognitionOnEnd Simple.processWithLLMEntry
    simp [hne, hm, hp]
  · intro heq
    unfold Simple.recognitionOnEnd
    simp [heq]

/-- C1 witness: on the concrete listening state with transcript
`"What is the capital of France?"`, `onend` enters thinking and starts
generation; on the whitespace-only transcript it goes to idle with no
generation call. -/
theorem onend_thinking_or_idle_witness :
    (Simple.recognitionOnEnd Simple.listenState).status = thinkingStatus ∧
    (Simple.recognitionOnEnd Simple.listenState).llmCalls
      = ["What is the capital of France?"] ∧
    (Simple.recognitionOnEnd Simple.listenStateBlank).status = idleStatus ∧
    (Simple.recognitionOnEnd Simple.listenStateBlank).llmCalls = [] := by
  have h1 := onend_thinking_or_idle Simple.listenState rfl rfl
  have h2 := onend_thinking_or_idle Simple.listenStateBlank rfl rfl
  have e1 := h1.1 (by decide)
  have e2 := h2.2.1 (by decide)
  exact ⟨e1.1, e1.2, e2.1, e2.2⟩

/-- C9: calling `processWithLLM` while the model is not loaded or while a
previous generation turn is still in progress returns at the guard and
changes nothing, in the always-on variant and in the simple variant. -/
theorem processWithLLM_guard_noop (input : String) (ack : Always.AckOutcome)
    (s : Always.AppState) (s2 : Simple.AppState)
    (h : s.modelLoaded = false ∨ s.isProcessing = true)
    (h2 : s2.modelLoaded = false ∨ s2.isProcessing = true) :
    Always.processWithLLMEntry input ack s = s ∧
    Simple.processWithLLMEntry input s2 = s2 := by
  constructor
  · unfold Always.processWithLLMEntry
    rcases h with h | h <;> simp [h]
  · unfold Simple.processWithLLMEntry
    rcases h2 with h | h <;> simp [h]

/-- C9 witness: in concrete thinking states (generation already in
progress) a further `processWithLLM` call is the identity. -/
theorem processWithLLM_guard_noop_witness :
    Always.processWithLLMEntry "hello" Always.AckOutcome.noPrebaked
      Always.thinkingTurnState = Always.thinkingTurnState ∧
    Simple.processWithLLMEntry "hello" Simple.thinkingState
      = Simple.thinkingState :=
  processWithLLM_guard_noop "hello" Always.AckOutcome.noPrebaked
    Always.thinkingTurnState Simple.thinkingState (Or.inr rfl) (Or.inr rfl)

/-- C8: the stop-all branch of `toggleVoice` applied to a state whose
queue is already empty, with no audio element, nothing speaking and the
idle prompt showing, leaves the state unchanged. -/
theorem stopAll_idempotent_on_drained (s : Always.AppState)
    (h1 : s.currentAudio = none) (h2 : s.speechQueue = [])
    (h3 : s.isSpeakingQueue = false) (h4 : s.isSpeaking = false)
    (h5 : s.fallbackUtter = none) (h6 : s.status = idleStatus) :
    Always.stopAll s = s := by
  unfold Always.stopAll
  cases s
  simp_all

/-- C8 witness: `stopAll` on the concrete drained idle state is the
identity. -/
theorem stopAll_idempotent_on_drained_witness :
    Always.stopAll Always.drainedIdleState = Always.drainedIdleState :=
  stopAll_idempotent_on_drained Always.drainedIdleState rfl rfl rfl rfl rfl rfl

/-- C7: for non-empty text, when the neural synthesis call fails (or the
neural TTS runtime is not ready), the Web Speech fallback is handed the
same final text, the state shows Speaking with `isSpeaking` set, and the
fallback utterance's end event returns it to Idle. -/
theorem speak_falls_back_same_text (text : String) (s : Always.AppState)
    (hne : text ≠ "") :
    ((Always.speak text Always.SynthOutcome.failed s).fallbackUtter = some text ∧
     (Always.speak text Always.SynthOutcome.failed s).status = speakingStatus ∧
     (Always.speak text Always.SynthOutcome.failed s).isSpeaking = true ∧
     (Always.fallbackUtterEnded
       (Always.speak text Always.SynthOutcome.failed s)).status = idleStatus) ∧
    (s.ttsReady = false →
      (Always.speak text Always.SynthOutcome.ok s).fallbackUtter = some text ∧
      (Always.speak text Always.SynthOutcome.ok s).status = speakingStatus ∧
      (Always.speak text Always.SynthOutcome.ok s).isSpeaking = true) := by
  constructor
  · unfold Always.speak Always.fallbackSpeak Always.fallbackUtterEnded
    by_cases hr : s.ttsReady <;> simp [hne, hr]
  · intro hr
    unfold Always.speak Always.fallbackSpeak
    simp [hne, hr]

/-- C7 witness: with the concrete text `Paris is the capital of France.`
a failing synthesis call falls back to the same text and the state shows
Speaking, returning to Idle on the utterance end event. -/
theorem speak_falls_back_same_text_witness :
    (Always.speak "Paris is the capital of France." Always.SynthOutcome.failed
      Always.readyState).fallbackUtter = some "Paris is the capital of France." ∧
    (Always.speak "Paris is the capital of France." Always.SynthOutcome.failed
      Always.readyState).status = speakingStatus ∧
    (Always.fallbackUtterEnded
      (Always.speak "Paris is the capital of France." Always.SynthOutcome.failed
        Always.readyState)).status = idleStatus := by
  have h := (speak_falls_back_same_text "Paris is the capital of France."
    Always.readyState (by decide)).1
  exact ⟨h.1, h.2.1, h.2.2.2⟩

/-- C5 counterexample: in a Thinking state (a generation turn in progress,
nothing speaking or listening) the toggle control is a no-op - the state
does not transition to Idle, contradicting the claim that a manual cancel
from every state forces an immediate transition to Idle. -/
theorem toggleVoice_noop_while_thinking :
    Always.toggleVoice Always.thinkingTurnState = Always.thinkingTurnState ∧
    (Always.toggleVoice Always.thinkingTurnState).status = thinkingStatus ∧
    thinkingStatus ≠ idleStatus := by
  decide

/-- C5 amended: with the model loaded, the toggle control cancels to Idle
from Speaking (halting the audio, clearing the queue) and from Listening
(stopping recognition); but from Thinking it is a no-op, and from Idle it
starts a new listening turn instead. -/
theorem toggleVoice_by_state (s : Always.AppState) (hm : s.modelLoaded = true) :
    ((s.isSpeaking = true ∨ s.isSpeakingQueue = true) →
      Always.toggleVoice s = Always.stopAll s ∧
      (Always.toggleVoice s).status = idleStatus ∧
      (Always.toggleVoice s).speechQueue = [] ∧
      (Always.toggleVoice s).currentAudio = none ∧
      (Always.toggleVoice s).isSpeaking = false ∧
      (Always.toggleVoice s).isSpeakingQueue = false) ∧
    (s.isSpeaking = false → s.isSpeakingQueue = false → s.recActive = true →
      (Always.toggleVoice s).recActive = false ∧
      (Always.toggleVoice s).isListening = false ∧
      (Always.toggleVoice s).status = idleStatus) ∧
    (s.isSpeaking = false → s.isSpeakingQueue = false → s.recActive = false →
      s.isProcessing = true → Always.toggleVoice s = s) ∧
    (s.isSpeaking = false → s.isSpeakingQueue = false → s.recActive = false →
      s.isProcessing = false →
      Always.toggleVoice s = Always.startAlwaysOnListening s) := by
  refine ⟨?_, ?_, ?_, ?_⟩
  · rintro (h | h) <;>
      simp [Always.toggleVoice, Always.stopAll, hm, h]
  · intro h1 h2 h3
    simp [Always.toggleVoice, hm, h1, h2, h3]
  · intro h1 h2 h3 h4
    simp [Always.toggleVoice, hm, h1, h2, h3, h4]
  · intro h1 h2 h3 h4
    simp [Always.toggleVoice, hm, h1, h2, h3, h4]

/-- C5 witness: on the concrete playback state the toggle control halts
the audio, clears the queue and shows the idle prompt. -/
theorem toggleVoice_by_state_witness :
    Always.toggleVoice Always.playingState = Always.stopAll Always.playingState ∧
    (Always.toggleVoice Always.playingState).status = idleStatus ∧
    (Always.toggleVoice Always.playingState).currentAudio = none ∧
    (Always.toggleVoice Always.playingState).speechQueue = [] := by
  have h := (toggleVoice_by_state Always.playingState rfl).1 (Or.inl rfl)
  exact ⟨h.1, h.2.1, h.2.2.2.1, h.2.2.1⟩

/-- C6 counterexample: a generation failure after two streamed token pieces
leaves the partial output `The capital of France` on the AI display - the
partial output is kept, contradicting the claim; moreover the always-on
variant's catch shows the plain idle prompt `Click to speak`, not an error
message. -/
theorem partial_output_kept_on_generation_error :
    (Simple.processWithLLMFinish
      (Simple.GenOutcome.fail ["The capital", " of France"])
      Simple.thinkingState).aiText = "The capital of France" ∧
    (Simple.processWithLLMFinish
      (Simple.GenOutcome.fail ["The capital", " of France"])
      Simple.thinkingState).aiText ≠ "" ∧
    (Simple.processWithLLMFinish
      (Simple.GenOutcome.fail ["The capital", " of France"])
      Simple.thinkingState).status = errIdleStatus ∧
    (Always.genErrorStep Always.thinkingTurnState).status = idleStatus ∧
    idleStatus.text = "Click to speak" := by
  decide

/-- C6 amended: a generation failure moves the state from Thinking
directly to Idle and makes no synthesis call (the utterance slot and the
TTS promise and audio element are untouched); the simple variant shows the
error message `Error - try again` while the always-on variant resets to
the idle prompt; the partially streamed output remains displayed (it is
the cleaning of the pieces streamed before the failure). -/
theorem generation_error_returns_idle (s : Simple.AppState)
    (pieces : List String) (i : String) (hg : s.genInput = some i)
    (sb : Always.AppState) (inp : String) (toks : List String)
    (hb : sb.phase = Always.Phase.generating inp toks) :
    (Simple.processWithLLMFinish (Simple.GenOutcome.fail pieces) s).status
      = errIdleStatus ∧
    (Simple.processWithLLMFinish (Simple.GenOutcome.fail pieces) s).isProcessing
      = false ∧
    (Simple.processWithLLMFinish (Simple.GenOutcome.fail pieces) s).utter
      = s.utter ∧
    (Simple.processWithLLMFinish (Simple.GenOutcome.fail pieces) s).aiText
      = cleanStr (String.join pieces) ∧
    (Always.genErrorStep sb).isProcessing = false ∧
    (Always.genErrorStep sb).status = idleStatus ∧
    (Always.genErrorStep sb).respTTS = sb.respTTS ∧
    (Always.genErrorStep sb).currentAudio = sb.currentAudio := by
  refine ⟨?_, ?_, ?_, ?_, ?_, ?_, ?_, ?_⟩ <;>
    simp [Simple.processWithLLMFinish, hg, Always.genErrorStep, hb,
          Always.onFinalResume] <;>
    split <;> rfl

/-- C6 amended witness: the concrete failing generation in a thinking
state lands on the error status with no utterance queued, and the
always-on catch lands on the idle prompt. -/
theorem generation_error_returns_idle_witness :
    (Simple.processWithLLMFinish (Simple.GenOutcome.fail ["Paris"])
      Simple.thinkingState).status = errIdleStatus ∧
    (Simple.processWithLLMFinish (Simple.GenOutcome.fail ["Paris"])
      Simple.thinkingState).utter = none ∧
    (Always.genErrorStep Always.thinkingTurnState).status = idleStatus := by
  have h := generation_error_returns_idle Simple.thinkingState ["Paris"]
    "What is the capital of France?" rfl Always.thinkingTurnState
    "What is the capital of France?" [] rfl
  exact ⟨h.1, h.2.2.1, h.2.2.2.2.2.1⟩

/-- C4 counterexample: enqueue one sentence, synthesize and play it to the
end.  Afterwards the queue is fully drained (`started` holds exactly the
enqueued item, nothing pending or playing, processor flag down), yet
`isSpeaking` is still `true` and the status still shows Speaking: the
controller does not leave the speaking state when the last item finishes
(that is done elsewhere, by the `waitForSpeechEnd` poller). -/
theorem speaking_not_cleared_after_queue_drains :
    (Always.qrun Always.singleItemTrace Always.queueInit).speechQueue = [] ∧
    (Always.qrun Always.singleItemTrace Always.queueInit).synthPending = none ∧
    (Always.qrun Always.singleItemTrace Always.queueInit).playing = none ∧
    (Always.qrun Always.singleItemTrace Always.queueInit).started
      = ["The capital of France is Paris."] ∧
    (Always.qrun Always.singleItemTrace Always.queueInit).isSpeakingQueue = false ∧
    (Always.qrun Always.singleItemTrace Always.queueInit).isSpeaking = true ∧
    (Always.qrun Always.singleItemTrace Always.queueInit).status = speakingStatus := by
  decide

theorem queueInv_processQueue (s : Always.QState) (hr : s.ttsReady = true)
    (hp : s.synthPending = none) (hpl : s.playing = none)
    (he : s.enqueued = s.started ++ s.speechQueue) :
    Always.QueueInv (Always.processQueue s) := by
  unfold Always.processQueue
  cases hq : s.speechQueue with
  | nil =>
    refine ⟨hr, ?_, ?_, ?_, ?_⟩
    · simpa [Always.processQueueGo, Always.optToList, hp, hq] using he
    · simp [Always.processQueueGo, hp]
    · simp [Always.processQueueGo, hpl]
    · simp [Always.processQueueGo]
  | cons t rest =>
    simp only [Always.processQueueGo, hr, if_true]
    refine ⟨rfl, ?_, ?_, ?_, ?_⟩
    · simpa [Always.optToList, hq] using he
    · intro _
      exact ⟨hpl, rfl⟩
    · simp [hpl]
    · intro hcon
      exact absurd hcon.2.1 (by simp)

/-- C4 amended: for every sequence of enqueues and synthesis/playback
completions (synthesis failures aside, which skip an item), the invariant
`QueueInv` is preserved: the accepted texts equal the started-playback
texts followed by the pending one and the queued ones, in order (strict
FIFO - playback order is exactly enqueue order), a new item is never
synthesized while one is still playing (no two items play concurrently),
and when the last item finishes the queue is empty with the processor
flag down; the `isSpeaking` flag and the speaking status, however, are not
cleared by the queue itself. -/
theorem queue_fifo_invariant_preserved (s : Always.QState) (e : Always.QEv)
    (hInv : Always.QueueInv s) (he : e ≠ Always.QEv.synthFail) :
    Always.QueueInv (Always.qstep e s) := by
  obtain ⟨hr, heq, hpend, hplay, hdrain⟩ := hInv
  cases e with
  | synthFail => exact absurd rfl he
  | enqueue t =>
    show Always.QueueInv (Always.speakSentence t s)
    unfold Always.speakSentence
    by_cases hblank : jsTrim t == ""
    · simp only [hblank, if_pos]
      exact ⟨hr, heq, hpend, hplay, hdrain⟩
    · simp only [hblank, Bool.false_eq_true, if_neg, not_false_iff]
      by_cases hrec : s.recActive
      · simp only [hrec, if_pos]
        by_cases hq : s.isSpeakingQueue
        · simp only [hq, if_pos]
          refine ⟨hr, ?_, ?_, ?_, ?_⟩
          · simp [heq, Always.optToList]
          · intro hps
            exact ⟨(hpend hps).1, rfl⟩
          · intro _
            rfl
          · intro hcon
            exact absurd hcon.1 (by simp)
        · simp only [hq, if_neg, Bool.false_eq_true, not_false_iff]
          refine queueInv_processQueue _ hr ?_ ?_ ?_
          · cases hsp : s.synthPending with
            | none => rfl
            | some u => exact absurd ((hpend (by simp [hsp])).2) (by simp [hq])
          · cases hpl : s.playing with
            | none => rfl
            | some u => exact absurd (hplay (by simp [hpl])) (by simp [hq])
          · have hsp : s.synthPending = none := by
              cases hsp : s.synthPending with
              | none => rfl
              | some u => exact absurd ((hpend (by simp [hsp])).2) (by simp [hq])
            simp [heq, hsp, Always.optToList]
      · simp only [hrec, if_neg, Bool.false_eq_true, not_false_iff]
        by_cases hq : s.isSpeakingQueue
        · simp only [hq, if_pos]
          refine ⟨hr, ?_, ?_, ?_, ?_⟩
          · simp [heq, Always.optToList]
          · intro hps
            exact ⟨(hpend hps).1, rfl⟩
          · intro _
            rfl
          · intro hcon
            exact absurd hcon.1 (by simp)
        · simp only [hq, if_neg, Bool.false_eq_true, not_false_iff]
          refine queueInv_processQueue _ hr ?_ ?_ ?_
          · cases hsp : s.synthPending with
            | none => rfl
            | some u => exact absurd ((hpend (by simp [hsp])).2) (by simp [hq])
          · cases hpl : s.playing with
            | none => rfl
            | some u => exact absurd (hplay (by simp [hpl])) (by simp [hq])
          · have hsp : s.synthPending = none := by
              cases hsp : s.synthPending with
              | none => rfl
              | some u => exact absurd ((hpend (by simp [hsp])).2) (by simp [hq])
            simp [heq, hsp, Always.optToList]
  | synthDone =>
    show Always.QueueInv (Always.synthDoneStep s)
    unfold Always.synthDoneStep
    cases hsp : s.synthPending with
    | none => exact ⟨hr, heq, hpend, hplay, hdrain⟩
    | some t =>
      refine ⟨hr, ?_, ?_, ?_, ?_⟩
      · simp [heq, hsp, Always.optToList]
      · simp
      · intro _
        exact (hpend (by simp [hsp])).2
      · intro hcon
        exact absurd hcon.2.2 (by simp)
  | audioEnded =>
    show Always.QueueInv (Always.queueAudioEnded s)
    unfold Always.queueAudioEnded
    cases hpl : s.playing with
    | none => exact ⟨hr, heq, hpend, hplay, hdrain⟩
    | some t =>
      have hsp : s.synthPending = none := by
        cases hsp : s.synthPending with
        | none => rfl
        | some u => exact absurd ((hpend (by simp [hsp])).1) (by simp [hpl])
      exact queueInv_processQueue _ hr hsp rfl (by simp [heq, hsp, Always.optToList])
  | audioError =>
    show Always.QueueInv (Always.queueAudioError s)
    unfold Always.queueAudioError
    cases hpl : s.playing with
    | none => exact ⟨hr, heq, hpend, hplay, hdrain⟩
    | some t =>
      have hsp : s.synthPending = none := by
        cases hsp : s.synthPending with
        | none => rfl
        | some u => exact absurd ((hpend (by simp [hsp])).1) (by simp [hpl])
      exact queueInv_processQueue _ hr hsp rfl (by simp [heq, hsp, Always.optToList])

/-- C4 amended witness: the invariant holds at rest and is preserved by a
concrete enqueue. -/
theorem queue_fifo_invariant_preserved_witness :
    Always.QueueInv
      (Always.qstep (Always.QEv.enqueue "Hello there.") Always.queueInit) :=
  queue_fifo_invariant_preserved Always.queueInit
    (Always.QEv.enqueue "Hello there.")
    (by
      refine ⟨rfl, rfl, ?_, ?_, fun _ => rfl⟩ <;>
        · intro h
          simp [Always.queueInit] at h)
    (by decide)

/-- C2 counterexample: running one complete successful turn from the ready
state reaches response playback, where `isProcessing` (thinking) and
`isSpeaking` are simultaneously true - `processWithLLM` is still awaiting
`playGeneratedAudio` when the response audio starts playing, and clears
`isProcessing` only after playback finishes. -/
theorem thinking_and_speaking_overlap :
    (Always.run Always.overlapTrace Always.readyState).isProcessing = true ∧
    (Always.run Always.overlapTrace Always.readyState).isSpeaking = true := by
  decide

theorem listenExclusive_checkSpeech {s : Always.AppState}
    (h : Always.ListenExclusive s) :
    Always.ListenExclusive (Always.checkSpeech s) := by
  unfold Always.checkSpeech
  split
  · exact h
  · exact ⟨h.1, fun hr => ⟨(h.2 hr).1, rfl⟩⟩

theorem listenExclusive_onFinalResume {s : Always.AppState}
    (h : Always.ListenExclusive s) :
    Always.ListenExclusive (Always.onFinalResume s) := by
  unfold Always.onFinalResume
  split
  · exact h
  · exact h

theorem listenExclusive_finishProc {s : Always.AppState}
    (h : Always.ListenExclusive s) :
    Always.ListenExclusive (Always.finishProc s) := by
  unfold Always.finishProc Always.waitForSpeechEnd
  exact listenExclusive_onFinalResume
    (listenExclusive_checkSpeech ⟨h.1, fun hr => ⟨rfl, (h.2 hr).2⟩⟩)

theorem listenExclusive_startAlways {s : Always.AppState}
    (h : Always.ListenExclusive s) (hp : s.isProcessing = false)
    (hs : s.isSpeaking = false) :
    Always.ListenExclusive (Always.startAlwaysOnListening s) := by
  unfold Always.startAlwaysOnListening
  split
  · exact h
  · exact ⟨rfl, fun _ => ⟨hp, hs⟩⟩

theorem listenExclusive_playGen (url : String) (playOk : Bool)
    {s : Always.AppState} (h : Always.ListenExclusive s) :
    Always.ListenExclusive (Always.playGeneratedAudio url playOk s) := by
  unfold Always.playGeneratedAudio
  split
  · split
    · exact ⟨rfl, fun hc => nomatch hc⟩
    · exact listenExclusive_finishProc ⟨rfl, fun hc => nomatch hc⟩
  · rename_i hrec
    split
    · exact ⟨h.1, fun hc => absurd hc hrec⟩
    · exact listenExclusive_finishProc ⟨h.1, fun hc => absurd hc hrec⟩

/-- C2 amended: mutual exclusion holds between listening and the other two
activities, but not between thinking and speaking.  Precisely: the
invariant `ListenExclusive` (the `isListening` flag mirrors the active
recognition runtime, and while it is active no generation turn is in
progress and nothing is speaking) is preserved by every event, provided a
delayed `startAlwaysOnListening` timer only fires in quiescent states
(without that proviso even this fails, see the C3 race); `isProcessing`
and `isSpeaking`, by contrast, are simultaneously true during response
playback. -/
theorem listening_exclusive_preserved (s : Always.AppState) (e : Always.Ev)
    (hInv : Always.ListenExclusive s)
    (ht : e = Always.Ev.timerFires → Always.quiescent s = true) :
    Always.ListenExclusive (Always.step e s) := by
  cases e with
  | toggle =>
    show Always.ListenExclusive (Always.toggleVoice s)
    cases hm : s.modelLoaded with
    | false =>
      have : Always.toggleVoice s = s := by
        simp [Always.toggleVoice, hm]
      rw [this]
      exact hInv
    | true =>
      by_cases hsq : (s.isSpeaking || s.isSpeakingQueue) = true
      · have : Always.toggleVoice s = Always.stopAll s := by
          simp [Always.toggleVoice, hm, hsq]
        rw [this]
        unfold Always.stopAll
        exact ⟨hInv.1, fun hr => ⟨(hInv.2 hr).1, rfl⟩⟩
      · cases hrec : s.recActive with
        | true =>
          have : Always.toggleVoice s
              = { s with recActive := false, isListening := false,
                         status := idleStatus } := by
            simp [Always.toggleVoice, hm, hrec]
            intro hcon
            exact absurd (by rcases hcon with h | h <;> simp [h]) hsq
          rw [this]
          exact ⟨rfl, fun hc => nomatch hc⟩
        | false =>
          cases hp : s.isProcessing with
          | true =>
            have : Always.toggleVoice s = s := by
              simp [Always.toggleVoice, hm, hrec, hp]
              intro hcon
              exact absurd (by rcases hcon with h | h <;> simp [h]) hsq
            rw [this]
            exact hInv
          | false =>
            have hspk : s.isSpeaking = false := by
              cases hv : s.isSpeaking with
              | false => rfl
              | true => exact absurd (by simp [hv]) hsq
            have : Always.toggleVoice s = Always.startAlwaysOnListening s := by
              simp [Always.toggleVoice, hm, hrec, hp]
              intro hcon
              exact absurd (by rcases hcon with h | h <;> simp [h]) hsq
            rw [this]
            exact listenExclusive_startAlways hInv hp hspk
  | timerFires =>
    show Always.ListenExclusive (Always.restartTimerFires s)
    have hq := ht rfl
    unfold Always.quiescent at hq
    rw [Bool.and_eq_true, Bool.and_eq_true] at hq
    obtain ⟨⟨hp, hs⟩, _⟩ := hq
    rw [Bool.not_eq_true'] at hp hs
    unfold Always.restartTimerFires
    cases hn : s.restartTimers with
    | zero => exact hInv
    | succ n => exact listenExclusive_startAlways hInv hp hs
  | poll =>
    show Always.ListenExclusive (Always.pollFires s)
    unfold Always.pollFires
    split
    · exact listenExclusive_checkSpeech hInv
    · exact hInv
  | recInterim t =>
    show Always.ListenExclusive (Always.recInterimStep t s)
    unfold Always.recInterimStep
    split
    · exact ⟨hInv.1, hInv.2⟩
    · exact hInv
  | recFinal t ack =>
    show Always.ListenExclusive (Always.recFinalStep t ack s)
    unfold Always.recFinalStep
    split
    · exact hInv
    · dsimp only
      split
      · unfold Always.processWithLLMEntry
        split
        · exact ⟨rfl, fun hc => nomatch hc⟩
        · cases ack <;> exact ⟨rfl, fun hc => nomatch hc⟩
      · exact hInv
  | recError => exact hInv
  | token p =>
    show Always.ListenExclusive (Always.tokenStep p s)
    unfold Always.tokenStep
    split
    · dsimp only
      split
      · exact hInv
      · exact hInv
    · exact hInv
  | genDone =>
    show Always.ListenExclusive (Always.genDoneStep s)
    unfold Always.genDoneStep Always.generateTTSAudioStart
    split
    · dsimp only
      split
      · split
        · dsimp only
          split
          · exact hInv
          · exact hInv
        · dsimp only
          split
          · exact hInv
          · exact hInv
      · exact listenExclusive_finishProc hInv
    · exact hInv
  | genError =>
    show Always.ListenExclusive (Always.genErrorStep s)
    unfold Always.genErrorStep
    split
    · exact listenExclusive_onFinalResume ⟨hInv.1, fun hr => ⟨rfl, (hInv.2 hr).2⟩⟩
    · exact hInv
  | ackEnded =>
    show Always.ListenExclusive (Always.ackEndedStep s)
    unfold Always.ackEndedStep
    split
    · dsimp only
      split
      · exact hInv
      · exact hInv
    · exact hInv
  | ackTimeout =>
    show Always.ListenExclusive (Always.ackTimeoutStep s)
    unfold Always.ackTimeoutStep
    split
    · exact hInv
    · exact hInv
  | ttsSettle ok =>
    show Always.ListenExclusive (Always.ttsSettleStep ok s)
    unfold Always.ttsSettleStep
    split
    · exact hInv
    · exact hInv
  | ttsResume playOk =>
    show Always.ListenExclusive (Always.ttsResumeStep playOk s)
    unfold Always.ttsResumeStep
    split
    · exact listenExclusive_playGen _ _ ⟨hInv.1, hInv.2⟩
    · exact listenExclusive_finishProc hInv
    · exact hInv
  | respEnded =>
    show Always.ListenExclusive (Always.respEndedStep s)
    unfold Always.respEndedStep
    split
    · split
      · exact listenExclusive_finishProc ⟨hInv.1, fun hr => ⟨(hInv.2 hr).1, rfl⟩⟩
      · exact hInv
    · exact hInv
  | respError =>
    show Always.ListenExclusive (Always.respErrorStep s)
    unfold Always.respErrorStep
    split
    · split
      · exact listenExclusive_finishProc ⟨hInv.1, fun hr => ⟨(hInv.2 hr).1, rfl⟩⟩
      · exact hInv
    · exact hInv

/-- C2 amended witness: the invariant holds in the ready state and is
preserved by a concrete toggle. -/
theorem listening_exclusive_preserved_witness :
    Always.ListenExclusive (Always.step Always.Ev.toggle Always.readyState) :=
  listening_exclusive_preserved Always.readyState Always.Ev.toggle
    ⟨rfl, fun h => nomatch h⟩ (fun h => nomatch h)

/-- C3: the feedback-prevention invariant does not hold for all
interleavings.  In the stale-timer trace, the restart timer left over from
the end of the first response (the `waitForSpeechEnd` poller and the
`onFinal` continuation each schedule one) fires while the second
response's audio is playing: recognition is started, and is then active,
while synthesized audio is playing. -/
theorem recognition_started_while_audio_playing :
    (Always.run Always.staleTimerTrace Always.readyState).recActive = true ∧
    (Always.run Always.staleTimerTrace Always.readyState).isListening = true ∧
    Always.audioIsPlaying (Always.run Always.staleTimerTrace Always.readyState)
      = true := by
  decide

end Nadha
